import Mathlib

/-
Shallow embedding of the LifeTracker scoring and cascade engine
(src/app/src-tauri/src/engine/scoring.rs and cascade.rs).

Rust f64 values are modelled as exact rationals (ℚ): every operation the
engine performs on scores is +, -, *, /, min and comparisons, which are
exactly the real-number operations the spec describes.  The one place the
code inspects NaN (the phone-minutes input) is modelled by `Option ℚ`,
`none` standing for NaN.  Rust i32 streaks are modelled as ℤ and u32
counts as ℕ.  `f64::min` on the engine's (never-NaN) score values is
`f64_min` below.
-/

namespace LifeTracker

/-- Rust `f64::min` on non-NaN operands. -/
def f64_min (a b : ℚ) : ℚ := if a ≤ b then a else b

theorem f64_min_eq_min (a b : ℚ) : f64_min a b = min a b := (min_def a b).symm

-- ===========================================================================
-- Data model (scoring.rs)
-- ===========================================================================

inductive HabitCategory where
  | productivity
  | health
  | growth
deriving DecidableEq

inductive PenaltyMode where
  | flat
  | perInstance
  | tiered
deriving DecidableEq

structure ScoringConfig where
  multiplier_productivity : ℚ
  multiplier_health : ℚ
  multiplier_growth : ℚ
  target_fraction : ℚ
  vice_cap : ℚ
  streak_threshold : ℚ
  streak_bonus_per_day : ℚ
  max_streak_bonus : ℚ
  phone_t1_min : ℚ
  phone_t2_min : ℚ
  phone_t3_min : ℚ
  phone_t1_penalty : ℚ
  phone_t2_penalty : ℚ
  phone_t3_penalty : ℚ

structure HabitValue where
  name : String
  value : ℚ
  points : ℚ
  category : HabitCategory

structure ViceValue where
  name : String
  triggered : Bool
  count : Option ℕ
  penalty_value : ℚ
  penalty_mode : PenaltyMode

/-- `phone_minutes` is `Option ℚ`: `none` models a NaN f64. -/
structure ScoringInput where
  habit_values : List HabitValue
  vice_values : List ViceValue
  phone_minutes : Option ℚ
  previous_streak : ℤ
  config : ScoringConfig

structure ScoringOutput where
  positive_score : ℚ
  vice_penalty : ℚ
  base_score : ℚ
  streak : ℤ
  final_score : ℚ
deriving DecidableEq

-- ===========================================================================
-- Scoring engine (scoring.rs)
-- ===========================================================================

def category_multiplier (category : HabitCategory) (config : ScoringConfig) : ℚ :=
  match category with
  | .productivity => config.multiplier_productivity
  | .health => config.multiplier_health
  | .growth => config.multiplier_growth

def compute_max_weighted (habits : List HabitValue) (config : ScoringConfig) : ℚ :=
  habits.foldl (fun sum h => sum + h.points * category_multiplier h.category config) 0

def compute_positive_score (habits : List HabitValue) (max_weighted : ℚ)
    (target_fraction : ℚ) (config : ScoringConfig) : ℚ :=
  if max_weighted = 0 then 0
  else
    let target := max_weighted * target_fraction
    if target = 0 then 0
    else
      let weighted_sum :=
        habits.foldl (fun sum h => sum + h.value * category_multiplier h.category config) 0
      f64_min 1 (weighted_sum / target)

/-- Sanitised phone minutes: NaN (`none`) or negative input becomes `0`. -/
def sanitize_phone (phone_minutes : Option ℚ) : ℚ :=
  match phone_minutes with
  | none => 0
  | some p => if p < 0 then 0 else p

def compute_vice_penalty (vices : List ViceValue) (phone_minutes : Option ℚ)
    (config : ScoringConfig) : ℚ :=
  let safe_phone := sanitize_phone phone_minutes
  let sum := vices.foldl
    (fun sum v =>
      match v.penalty_mode with
      | .flat => if v.triggered then sum + v.penalty_value else sum
      | .perInstance => sum + (v.count.getD 0 : ℚ) * v.penalty_value
      | .tiered => sum)
    0
  let sum :=
    if config.phone_t3_min ≤ safe_phone then sum + config.phone_t3_penalty
    else if config.phone_t2_min ≤ safe_phone then sum + config.phone_t2_penalty
    else if config.phone_t1_min ≤ safe_phone then sum + config.phone_t1_penalty
    else sum
  f64_min config.vice_cap sum

def compute_base_score (positive_score : ℚ) (vice_penalty : ℚ) : ℚ :=
  positive_score * (1 - vice_penalty)

def compute_streak (base_score : ℚ) (previous_streak : ℤ) (streak_threshold : ℚ) : ℤ :=
  if streak_threshold ≤ base_score then previous_streak + 1 else 0

def compute_final_score (base_score : ℚ) (streak : ℤ)
    (streak_bonus_per_day : ℚ) (max_streak_bonus : ℚ) : ℚ :=
  let streak_multiplier := f64_min ((streak : ℚ) * streak_bonus_per_day) max_streak_bonus
  f64_min 1 (base_score * (1 + streak_multiplier))

def compute_scores (input : ScoringInput) : ScoringOutput :=
  let max_weighted := compute_max_weighted input.habit_values input.config
  let positive_score :=
    compute_positive_score input.habit_values max_weighted input.config.target_fraction
      input.config
  let vice_penalty := compute_vice_penalty input.vice_values input.phone_minutes input.config
  let base_score := compute_base_score positive_score vice_penalty
  let streak := compute_streak base_score input.previous_streak input.config.streak_threshold
  let final_score :=
    compute_final_score base_score streak input.config.streak_bonus_per_day
      input.config.max_streak_bonus
  { positive_score := positive_score
    vice_penalty := vice_penalty
    base_score := base_score
    streak := streak
    final_score := final_score }

-- ===========================================================================
-- Calendar dates (cascade.rs: chrono NaiveDate, "%Y-%m-%d")
-- ===========================================================================

structure Date where
  year : ℤ
  month : ℕ
  day : ℕ
deriving DecidableEq

def isLeapYear (y : ℤ) : Bool :=
  y % 4 == 0 && (y % 100 != 0 || y % 400 == 0)

def daysInMonth (y : ℤ) (m : ℕ) : ℕ :=
  if m = 2 then (if isLeapYear y then 29 else 28)
  else if m = 4 ∨ m = 6 ∨ m = 9 ∨ m = 11 then 30
  else 31

/-- Split a character list at every dash, like `String.splitOn "-"`. -/
def splitDash : List Char → List (List Char)
  | [] => [[]]
  | c :: rest =>
    if c = '-' then [] :: splitDash rest
    else
      match splitDash rest with
      | [] => [[c]]
      | p :: ps => (c :: p) :: ps

/-- `String.toNat?` on a field of a date string: all characters must be
decimal digits and the field non-empty. -/
def parseNatField (cs : List Char) : Option ℕ :=
  match cs with
  | [] => none
  | _ => go cs 0
where
  go : List Char → ℕ → Option ℕ
    | [], acc => some acc
    | c :: rest, acc =>
      if 48 ≤ c.toNat ∧ c.toNat ≤ 57 then go rest (acc * 10 + (c.toNat - 48))
      else none

/-- Parse a `YYYY-MM-DD` string as chrono's `parse_from_str(s, "%Y-%m-%d")`
does on the engine's inputs: three dash-separated decimal fields (year up
to 4 digits, month and day up to 2), the whole string consumed, and the
triple a valid proleptic-Gregorian calendar date. -/
def parseDate (s : String) : Option Date :=
  match splitDash s.data with
  | [ys, ms, ds] =>
    if ys.length ≤ 4 ∧ ms.length ≤ 2 ∧ ds.length ≤ 2 then
      match parseNatField ys, parseNatField ms, parseNatField ds with
      | some y, some m, some d =>
        if 1 ≤ m ∧ m ≤ 12 ∧ 1 ≤ d ∧ d ≤ daysInMonth (y : ℤ) m then
          some { year := (y : ℤ), month := m, day := d }
        else none
      | _, _, _ => none
    else none
  | _ => none

/-- The calendar day before `d` (chrono `pred_opt`, which only fails at
`NaiveDate::MIN`, unreachable from any parsed date). -/
def predDate (d : Date) : Date :=
  if 2 ≤ d.day then { d with day := d.day - 1 }
  else if 2 ≤ d.month then { year := d.year, month := d.month - 1,
                             day := daysInMonth d.year (d.month - 1) }
  else { year := d.year - 1, month := 12, day := 31 }

def digitChar (n : ℕ) : Char :=
  match n with
  | 0 => '0' | 1 => '1' | 2 => '2' | 3 => '3' | 4 => '4'
  | 5 => '5' | 6 => '6' | 7 => '7' | 8 => '8' | _ => '9'

def pad4 (n : ℕ) : String :=
  String.mk [digitChar (n / 1000 % 10), digitChar (n / 100 % 10),
             digitChar (n / 10 % 10), digitChar (n % 10)]

def pad2 (n : ℕ) : String :=
  String.mk [digitChar (n / 10 % 10), digitChar (n % 10)]

/-- Format a date back to `YYYY-MM-DD` (chrono `format("%Y-%m-%d")`, on the
years 0–9999 reachable from a parsed date). -/
def formatDate (d : Date) : String :=
  (if d.year < 0 then "-" ++ pad4 d.year.natAbs else pad4 d.year.toNat)
    ++ "-" ++ pad2 d.month ++ "-" ++ pad2 d.day

/-- `previous_calendar_day` from cascade.rs: `none` models the `Err` case
(the date string failed to parse). -/
def previous_calendar_day (date_str : String) : Option String :=
  (parseDate date_str).map (fun d => formatDate (predDate d))

-- ===========================================================================
-- Cascade propagator (cascade.rs)
-- ===========================================================================

structure CascadeUpdate where
  date : String
  streak : ℤ
  final_score : ℚ
  positive_score : Option ℚ
  vice_penalty : Option ℚ
  base_score : Option ℚ
deriving DecidableEq

/-- One stored subsequent-day row: `(date, base_score, streak, final_score)`. -/
abbrev StoredDay := String × ℚ × ℤ × ℚ

/-- The forward walk of `compute_cascade` over `subsequent_days`, carrying
`last_processed_date` and `last_streak`.  A date-parse failure or the
convergence test ends the walk. -/
def cascadeWalk (config : ScoringConfig) :
    String → ℤ → List StoredDay → List CascadeUpdate
  | _, _, [] => []
  | lastDate, lastStreak, (date, base_score, stored_streak, stored_final) :: rest =>
    match previous_calendar_day date with
    | none => []
    | some prev_day =>
      let prev_streak := if prev_day = lastDate then lastStreak else 0
      let new_streak := compute_streak base_score prev_streak config.streak_threshold
      let new_final := compute_final_score base_score new_streak
        config.streak_bonus_per_day config.max_streak_bonus
      if new_streak = stored_streak ∧ new_final = stored_final then []
      else
        { date := date, streak := new_streak, final_score := new_final,
          positive_score := none, vice_penalty := none, base_score := none }
          :: cascadeWalk config date new_streak rest

/-- The edited day's update, always the first element of the cascade result. -/
def editedUpdate (edited_date : String) (edited_scores : ScoringOutput) : CascadeUpdate :=
  { date := edited_date
    streak := edited_scores.streak
    final_score := edited_scores.final_score
    positive_score := some edited_scores.positive_score
    vice_penalty := some edited_scores.vice_penalty
    base_score := some edited_scores.base_score }

def compute_cascade (edited_date : String) (edited_scores : ScoringOutput)
    (subsequent_days : List StoredDay) (config : ScoringConfig) : List CascadeUpdate :=
  editedUpdate edited_date edited_scores
    :: cascadeWalk config edited_date edited_scores.streak subsequent_days

-- ===========================================================================
-- Default configuration (test fixture shared by scoring.rs and cascade.rs)
-- ===========================================================================

def defaultConfig : ScoringConfig :=
  { multiplier_productivity := 1.5
    multiplier_health := 1.3
    multiplier_growth := 1
    target_fraction := 0.85
    vice_cap := 0.40
    streak_threshold := 0.65
    streak_bonus_per_day := 0.01
    max_streak_bonus := 0.10
    phone_t1_min := 61
    phone_t2_min := 181
    phone_t3_min := 301
    phone_t1_penalty := 0.03
    phone_t2_penalty := 0.07
    phone_t3_penalty := 0.12 }

-- ===========================================================================
-- Recomputation chains used by the convergence and streak-run claims
-- ===========================================================================

/-- The stored `(streak, final_score)` of every subsequent day equals what the
cascade's recomputation would produce, walking the chain from the edited day
(`prev_streak` taken from the chain when the dates are consecutive, reset to 0
on a calendar gap). -/
def storedMatchesRecomputation (config : ScoringConfig) :
    String → ℤ → List StoredDay → Prop
  | _, _, [] => True
  | lastDate, lastStreak, (date, base_score, stored_streak, stored_final) :: rest =>
    match previous_calendar_day date with
    | none => False
    | some prev_day =>
      let prev_streak := if prev_day = lastDate then lastStreak else 0
      let new_streak := compute_streak base_score prev_streak config.streak_threshold
      let new_final := compute_final_score base_score new_streak
        config.streak_bonus_per_day config.max_streak_bonus
      new_streak = stored_streak ∧ new_final = stored_final
        ∧ storedMatchesRecomputation config date new_streak rest

/-- Streak of day `k` (1-indexed) in a gap-free run whose day `j` has base
score `bases j`: day 1 is scored against `previous_streak = -1`, each later
day against the previous day's computed streak. -/
def run_streak (bases : ℕ → ℚ) (streak_threshold : ℚ) : ℕ → ℤ
  | 0 => -1
  | k + 1 => compute_streak (bases (k + 1)) (run_streak bases streak_threshold k) streak_threshold

-- ===========================================================================
-- Bound lemmas for the scoring pipeline
-- ===========================================================================

theorem category_multiplier_nonneg (config : ScoringConfig)
    (hp : 0 ≤ config.multiplier_productivity) (hh : 0 ≤ config.multiplier_health)
    (hg : 0 ≤ config.multiplier_growth) (c : HabitCategory) :
    0 ≤ category_multiplier c config := by
  cases c
  exacts [hp, hh, hg]

theorem foldl_add_nonneg {α : Type} (g : α → ℚ) (l : List α) :
    ∀ init : ℚ, 0 ≤ init → (∀ a ∈ l, 0 ≤ g a) →
      0 ≤ l.foldl (fun sum a => sum + g a) init := by
  induction l with
  | nil => intro init h _; simpa
  | cons hd tl ih =>
    intro init h hg
    simp only [List.foldl]
    exact ih (init + g hd)
      (by have := hg hd (List.mem_cons_self hd tl); linarith)
      (fun a ha => hg a (List.mem_cons_of_mem hd ha))

theorem vice_foldl_nonneg (l : List ViceValue) :
    ∀ init : ℚ, 0 ≤ init → (∀ v ∈ l, 0 ≤ v.penalty_value) →
      0 ≤ l.foldl
        (fun sum v =>
          match v.penalty_mode with
          | .flat => if v.triggered then sum + v.penalty_value else sum
          | .perInstance => sum + (v.count.getD 0 : ℚ) * v.penalty_value
          | .tiered => sum) init := by
  induction l with
  | nil => intro init h _; simpa
  | cons hd tl ih =>
    intro init h hpen
    have hhd : 0 ≤ hd.penalty_value := hpen hd (List.mem_cons_self hd tl)
    obtain ⟨vname, trig, cnt, pv, mode⟩ := hd
    simp only [List.foldl]
    refine ih _ ?_ (fun v hv => hpen v (List.mem_cons_of_mem _ hv))
    cases mode
    · dsimp only
      split
      · exact add_nonneg h hhd
      · exact h
    · dsimp only
      exact add_nonneg h (mul_nonneg (Nat.cast_nonneg _) hhd)
    · exact h

theorem compute_vice_penalty_bounds (vices : List ViceValue) (phone : Option ℚ)
    (config : ScoringConfig) (hcap : 0 ≤ config.vice_cap)
    (ht1 : 0 ≤ config.phone_t1_penalty) (ht2 : 0 ≤ config.phone_t2_penalty)
    (ht3 : 0 ≤ config.phone_t3_penalty)
    (hpen : ∀ v ∈ vices, 0 ≤ v.penalty_value) :
    0 ≤ compute_vice_penalty vices phone config
  ∧ compute_vice_penalty vices phone config ≤ config.vice_cap := by
  have hsum0 : 0 ≤ vices.foldl
      (fun sum v =>
        match v.penalty_mode with
        | .flat => if v.triggered then sum + v.penalty_value else sum
        | .perInstance => sum + (v.count.getD 0 : ℚ) * v.penalty_value
        | .tiered => sum) 0 := vice_foldl_nonneg vices 0 le_rfl hpen
  simp only [compute_vice_penalty, f64_min_eq_min]
  constructor
  · refine le_min hcap ?_
    split_ifs <;> linarith
  · exact min_le_left _ _

theorem compute_positive_score_bounds (habits : List HabitValue)
    (config : ScoringConfig) (htf : 0 < config.target_fraction)
    (hp : 0 ≤ config.multiplier_productivity) (hh : 0 ≤ config.multiplier_health)
    (hg : 0 ≤ config.multiplier_growth)
    (hvals : ∀ h ∈ habits, 0 ≤ h.value ∧ 0 ≤ h.points) :
    0 ≤ compute_positive_score habits (compute_max_weighted habits config)
        config.target_fraction config
  ∧ compute_positive_score habits (compute_max_weighted habits config)
        config.target_fraction config ≤ 1 := by
  have hcm : ∀ c, 0 ≤ category_multiplier c config :=
    category_multiplier_nonneg config hp hh hg
  have hmw : 0 ≤ compute_max_weighted habits config :=
    foldl_add_nonneg
      (fun h : HabitValue => h.points * category_multiplier h.category config)
      habits 0 le_rfl (fun a ha => mul_nonneg (hvals a ha).2 (hcm _))
  have hws : 0 ≤ habits.foldl
      (fun sum h => sum + h.value * category_multiplier h.category config) 0 :=
    foldl_add_nonneg
      (fun h : HabitValue => h.value * category_multiplier h.category config)
      habits 0 le_rfl (fun a ha => mul_nonneg (hvals a ha).1 (hcm _))
  simp only [compute_positive_score]
  split_ifs with h1 h2
  · norm_num
  · norm_num
  · have hmwpos : 0 < compute_max_weighted habits config :=
      lt_of_le_of_ne hmw (Ne.symm h1)
    have htarget : 0 < compute_max_weighted habits config * config.target_fraction :=
      mul_pos hmwpos htf
    rw [f64_min_eq_min]
    exact ⟨le_min zero_le_one (div_nonneg hws htarget.le), min_le_left _ _⟩

theorem compute_streak_nonneg (base_score : ℚ) (previous_streak : ℤ)
    (streak_threshold : ℚ) (h : -1 ≤ previous_streak) :
    0 ≤ compute_streak base_score previous_streak streak_threshold := by
  unfold compute_streak
  split <;> omega

theorem compute_base_score_bounds (positive_score vice_penalty : ℚ)
    (hp0 : 0 ≤ positive_score) (hp1 : positive_score ≤ 1)
    (hv0 : 0 ≤ vice_penalty) (hv1 : vice_penalty ≤ 1) :
    0 ≤ compute_base_score positive_score vice_penalty
  ∧ compute_base_score positive_score vice_penalty ≤ 1 := by
  unfold compute_base_score
  constructor
  · exact mul_nonneg hp0 (by linarith)
  · nlinarith

theorem compute_final_score_bounds (base_score : ℚ) (streak : ℤ)
    (streak_bonus_per_day max_streak_bonus : ℚ) (hb : 0 ≤ base_score)
    (hs : 0 ≤ streak) (hbonus : 0 ≤ streak_bonus_per_day)
    (hmaxb : 0 ≤ max_streak_bonus) :
    0 ≤ compute_final_score base_score streak streak_bonus_per_day max_streak_bonus
  ∧ compute_final_score base_score streak streak_bonus_per_day max_streak_bonus ≤ 1 := by
  have hsq : (0 : ℚ) ≤ (streak : ℚ) := by exact_mod_cast hs
  have hmult : 0 ≤ min ((streak : ℚ) * streak_bonus_per_day) max_streak_bonus :=
    le_min (mul_nonneg hsq hbonus) hmaxb
  simp only [compute_final_score, f64_min_eq_min]
  constructor
  · exact le_min zero_le_one (mul_nonneg hb (by linarith))
  · exact min_le_left _ _

-- ===========================================================================
-- Claim theorems
-- ===========================================================================

/-- C2: for every config with `vice_cap ∈ [0,1]`, `target_fraction ∈ (0,1]`,
non-negative multipliers, streak bonuses and penalty values, and every input
with non-negative habit values/points and `previous_streak ≥ -1`,
`compute_scores` yields `final_score ∈ [0,1]` and
`vice_penalty ∈ [0, vice_cap]`. -/
theorem compute_scores_bounds (input : ScoringInput)
    (hcap0 : 0 ≤ input.config.vice_cap) (hcap1 : input.config.vice_cap ≤ 1)
    (htf : 0 < input.config.target_fraction)
    (htf1 : input.config.target_fraction ≤ 1)
    (hmp : 0 ≤ input.config.multiplier_productivity)
    (hmh : 0 ≤ input.config.multiplier_health)
    (hmg : 0 ≤ input.config.multiplier_growth)
    (hbonus : 0 ≤ input.config.streak_bonus_per_day)
    (hmaxb : 0 ≤ input.config.max_streak_bonus)
    (ht1 : 0 ≤ input.config.phone_t1_penalty)
    (ht2 : 0 ≤ input.config.phone_t2_penalty)
    (ht3 : 0 ≤ input.config.phone_t3_penalty)
    (hpen : ∀ v ∈ input.vice_values, 0 ≤ v.penalty_value)
    (hvals : ∀ h ∈ input.habit_values, 0 ≤ h.value ∧ 0 ≤ h.points)
    (hprev : -1 ≤ input.previous_streak) :
    (0 ≤ (compute_scores input).final_score ∧ (compute_scores input).final_score ≤ 1)
  ∧ (0 ≤ (compute_scores input).vice_penalty
     ∧ (compute_scores input).vice_penalty ≤ input.config.vice_cap) := by
  obtain ⟨hv0, hv1⟩ := compute_vice_penalty_bounds input.vice_values
    input.phone_minutes input.config hcap0 ht1 ht2 ht3 hpen
  obtain ⟨hp0, hp1⟩ := compute_positive_score_bounds input.habit_values
    input.config htf hmp hmh hmg hvals
  obtain ⟨hb0, hb1⟩ := compute_base_score_bounds _ _ hp0 hp1 hv0 (le_trans hv1 hcap1)
  have hstreak : 0 ≤ compute_streak
      (compute_base_score
        (compute_positive_score input.habit_values
          (compute_max_weighted input.habit_values input.config)
          input.config.target_fraction input.config)
        (compute_vice_penalty input.vice_values input.phone_minutes input.config))
      input.previous_streak input.config.streak_threshold :=
    compute_streak_nonneg _ _ _ hprev
  obtain ⟨hf0, hf1⟩ := compute_final_score_bounds _ _ _ _ hb0 hstreak hbonus hmaxb
  simp only [compute_scores]
  exact ⟨⟨hf0, hf1⟩, hv0, hv1⟩

theorem compute_scores_bounds_witness :
    (0 ≤ (compute_scores ⟨[⟨"gym", 2, 3, .health⟩],
          [⟨"weed", true, none, 0.12, .flat⟩], some 100, 3,
          defaultConfig⟩).final_score
    ∧ (compute_scores ⟨[⟨"gym", 2, 3, .health⟩],
          [⟨"weed", true, none, 0.12, .flat⟩], some 100, 3,
          defaultConfig⟩).final_score ≤ 1)
  ∧ (0 ≤ (compute_scores ⟨[⟨"gym", 2, 3, .health⟩],
          [⟨"weed", true, none, 0.12, .flat⟩], some 100, 3,
          defaultConfig⟩).vice_penalty
    ∧ (compute_scores ⟨[⟨"gym", 2, 3, .health⟩],
          [⟨"weed", true, none, 0.12, .flat⟩], some 100, 3,
          defaultConfig⟩).vice_penalty
        ≤ (⟨[⟨"gym", 2, 3, .health⟩], [⟨"weed", true, none, 0.12, .flat⟩],
            some 100, 3, defaultConfig⟩ : ScoringInput).config.vice_cap) :=
  compute_scores_bounds
    ⟨[⟨"gym", 2, 3, .health⟩], [⟨"weed", true, none, 0.12, .flat⟩],
      some 100, 3, defaultConfig⟩
    (by norm_num [defaultConfig]) (by norm_num [defaultConfig])
    (by norm_num [defaultConfig]) (by norm_num [defaultConfig])
    (by norm_num [defaultConfig]) (by norm_num [defaultConfig])
    (by norm_num [defaultConfig]) (by norm_num [defaultConfig])
    (by norm_num [defaultConfig]) (by norm_num [defaultConfig])
    (by norm_num [defaultConfig]) (by norm_num [defaultConfig])
    (by intro v hv; simp only [List.mem_singleton] at hv; subst hv; norm_num)
    (by intro h hh; simp only [List.mem_singleton] at hh; subst hh; norm_num)
    (by norm_num)

/-- C1 (counterexample): on a subsequent-day list containing an unparseable
date string, `compute_cascade` does not fail as a whole and surfaces no
`InvalidDate` error — its return type has no error channel at all — it
returns a normal update list that still applies the edited day's update. -/
theorem cascade_invalid_date_counterexample :
    previous_calendar_day "not-a-date" = none ∧
    compute_cascade "2026-02-05" ⟨0.50, 0, 0.50, 0, 0.50⟩
        [("not-a-date", 0.72, 3, 0.7416)] defaultConfig
      = [editedUpdate "2026-02-05" ⟨0.50, 0, 0.50, 0, 0.50⟩] :=
  ⟨by decide, rfl⟩

/-- C1 (amended): if the first subsequent day's date string cannot be parsed,
`compute_cascade` silently stops the walk there and returns just the
edited-day update — no error is surfaced and the result is a normal value. -/
theorem cascade_invalid_date_returns_partial (edited_date : String)
    (edited_scores : ScoringOutput) (d : String) (b : ℚ) (s : ℤ) (f : ℚ)
    (rest : List StoredDay) (config : ScoringConfig)
    (hbad : previous_calendar_day d = none) :
    compute_cascade edited_date edited_scores ((d, b, s, f) :: rest) config
      = [editedUpdate edited_date edited_scores] := by
  simp only [compute_cascade, cascadeWalk, hbad]

theorem cascade_invalid_date_returns_partial_witness :
    compute_cascade "2026-02-03" ⟨0.60, 0, 0.60, 0, 0.60⟩
        [("oops", 0.72, 3, 0.7416)] defaultConfig
      = [editedUpdate "2026-02-03" ⟨0.60, 0, 0.60, 0, 0.60⟩] :=
  cascade_invalid_date_returns_partial "2026-02-03" ⟨0.60, 0, 0.60, 0, 0.60⟩
    "oops" 0.72 3 0.7416 [] defaultConfig (by decide)

/-- C3: if every stored tuple in `subsequent_days` already holds exactly the
streak and final score that recomputation along the chain would produce,
`compute_cascade` returns exactly one update: the edited day. -/
theorem cascade_convergence (edited_date : String) (edited_scores : ScoringOutput)
    (subsequent_days : List StoredDay) (config : ScoringConfig)
    (hmatch : storedMatchesRecomputation config edited_date edited_scores.streak
      subsequent_days) :
    compute_cascade edited_date edited_scores subsequent_days config
      = [editedUpdate edited_date edited_scores] := by
  cases subsequent_days with
  | nil => rfl
  | cons hd tl =>
    obtain ⟨date, base_score, stored_streak, stored_final⟩ := hd
    cases hpc : previous_calendar_day date with
    | none => simp only [compute_cascade, cascadeWalk, hpc]
    | some prev_day =>
      simp only [storedMatchesRecomputation, hpc] at hmatch
      obtain ⟨h1, h2, _⟩ := hmatch
      simp only [compute_cascade, cascadeWalk, hpc, if_pos (And.intro h1 h2)]

theorem cascade_convergence_witness :
    compute_cascade "2026-02-02" ⟨0.50, 0, 0.50, 0, 0.50⟩
        [("2026-02-03", 0.50, 0, 0.50)] defaultConfig
      = [editedUpdate "2026-02-02" ⟨0.50, 0, 0.50, 0, 0.50⟩] :=
  cascade_convergence "2026-02-02" ⟨0.50, 0, 0.50, 0, 0.50⟩
    [("2026-02-03", 0.50, 0, 0.50)] defaultConfig (by
      have hpc : previous_calendar_day "2026-02-03" = some "2026-02-02" := by decide
      simp only [storedMatchesRecomputation, hpc]
      norm_num [compute_streak, compute_final_score, f64_min, defaultConfig])

/-- C4: in the TV20 scenario (edited day base 0.60 with streak 0 below the
0.65 threshold, stored days `(0.72, 3, 0.7416)` and `(0.68, 4, 0.7072)`,
bonus 0.01/day capped at 0.10), `compute_cascade` returns exactly three
updates, the second with streak 1 and final 0.7272, the third with streak 2
and final 0.6936. -/
theorem cascade_tv20 :
    compute_cascade "2026-02-03" ⟨0.60, 0, 0.60, 0, 0.60⟩
        [("2026-02-04", 0.72, 3, 0.7416), ("2026-02-05", 0.68, 4, 0.7072)]
        defaultConfig
      = [editedUpdate "2026-02-03" ⟨0.60, 0, 0.60, 0, 0.60⟩,
         ⟨"2026-02-04", 1, 0.7272, none, none, none⟩,
         ⟨"2026-02-05", 2, 0.6936, none, none, none⟩] := by
  have h1 : previous_calendar_day "2026-02-04" = some "2026-02-03" := by decide
  have h2 : previous_calendar_day "2026-02-05" = some "2026-02-04" := by decide
  norm_num [compute_cascade, cascadeWalk, h1, h2, compute_streak,
    compute_final_score, f64_min, defaultConfig]

/-- C5: in a gap-free run of `N` days all meeting the streak threshold, with
day 1 scored against `previous_streak = -1` and each later day against the
previous day's computed streak, day `k` (1-indexed, `1 ≤ k ≤ N`) gets
streak `k - 1`. -/
theorem streak_run_linear (bases : ℕ → ℚ) (thr : ℚ) (N : ℕ)
    (hmeet : ∀ j, 1 ≤ j → j ≤ N → thr ≤ bases j) :
    ∀ k, 1 ≤ k → k ≤ N → run_streak bases thr k = (k : ℤ) - 1 := by
  intro k
  induction k with
  | zero => omega
  | succ n ih =>
    intro _ hN
    have hb : thr ≤ bases (n + 1) := hmeet (n + 1) (by omega) hN
    by_cases hn : 1 ≤ n
    · have hrec := ih hn (by omega)
      simp only [run_streak, compute_streak, if_pos hb, hrec]
      push_cast
      ring
    · have hn0 : n = 0 := by omega
      subst hn0
      simp only [run_streak, compute_streak, if_pos hb]
      norm_num

theorem streak_run_linear_witness :
    run_streak (fun _ => 1) 0.65 3 = (3 : ℤ) - 1 :=
  streak_run_linear (fun _ => 1) 0.65 3 (fun _ _ _ => by norm_num) 3
    (by norm_num) (le_refl 3)

/-- C6: with the default config, the phone contribution picks at most one
tier — the highest whose minimum the sanitized minutes meet: penalty 0 up to
60 minutes, 0.03 on [61, 181), 0.07 on [181, 301), 0.12 from 301 on; in
particular 60 ↦ 0, 61 ↦ 0.03, 180 ↦ 0.03, 181 ↦ 0.07, 300 ↦ 0.07,
301 ↦ 0.12 with no triggered vices. -/
theorem phone_tier_boundaries :
    compute_vice_penalty [] (some 60) defaultConfig = 0
  ∧ compute_vice_penalty [] (some 61) defaultConfig = 0.03
  ∧ compute_vice_penalty [] (some 180) defaultConfig = 0.03
  ∧ compute_vice_penalty [] (some 181) defaultConfig = 0.07
  ∧ compute_vice_penalty [] (some 300) defaultConfig = 0.07
  ∧ compute_vice_penalty [] (some 301) defaultConfig = 0.12
  ∧ (∀ p : ℚ, 0 ≤ p → p < 61 → compute_vice_penalty [] (some p) defaultConfig = 0)
  ∧ (∀ p : ℚ, 61 ≤ p → p < 181 → compute_vice_penalty [] (some p) defaultConfig = 0.03)
  ∧ (∀ p : ℚ, 181 ≤ p → p < 301 → compute_vice_penalty [] (some p) defaultConfig = 0.07)
  ∧ (∀ p : ℚ, 301 ≤ p → compute_vice_penalty [] (some p) defaultConfig = 0.12) := by
  refine ⟨?_, ?_, ?_, ?_, ?_, ?_, ?_, ?_, ?_, ?_⟩
  · norm_num [compute_vice_penalty, sanitize_phone, f64_min, defaultConfig]
  · norm_num [compute_vice_penalty, sanitize_phone, f64_min, defaultConfig]
  · norm_num [compute_vice_penalty, sanitize_phone, f64_min, defaultConfig]
  · norm_num [compute_vice_penalty, sanitize_phone, f64_min, defaultConfig]
  · norm_num [compute_vice_penalty, sanitize_phone, f64_min, defaultConfig]
  · norm_num [compute_vice_penalty, sanitize_phone, f64_min, defaultConfig]
  all_goals
    intro p _
    intros
    simp only [compute_vice_penalty, sanitize_phone, List.foldl, defaultConfig,
      if_neg (not_lt.mpr (by linarith : (0 : ℚ) ≤ p))]
    norm_num [f64_min]
    split_ifs <;> first | rfl | linarith

theorem phone_tier_boundaries_witness :
    compute_vice_penalty [] (some 200) defaultConfig = 0.07 :=
  phone_tier_boundaries.2.2.2.2.2.2.2.2.1 200 (by norm_num) (by norm_num)

/-- C7: a zero `max_weighted` or zero target yields `positive_score = 0`
(a defined value, not an error), and with an empty habit list
`compute_scores` yields `positive_score = 0` and `base_score = 0` whatever
the vices and phone minutes are. -/
theorem empty_habits_zero_scores :
    (∀ (habits : List HabitValue) (max_weighted target_fraction : ℚ)
        (config : ScoringConfig),
        max_weighted = 0 ∨ max_weighted * target_fraction = 0 →
        compute_positive_score habits max_weighted target_fraction config = 0)
  ∧ (∀ (vices : List ViceValue) (phone : Option ℚ) (prev : ℤ)
        (config : ScoringConfig),
        (compute_scores ⟨[], vices, phone, prev, config⟩).positive_score = 0
      ∧ (compute_scores ⟨[], vices, phone, prev, config⟩).base_score = 0) := by
  constructor
  · intro habits mw tf cfg h
    by_cases hmw : mw = 0
    · simp only [compute_positive_score, if_pos hmw]
    · have htf : mw * tf = 0 := h.resolve_left hmw
      simp only [compute_positive_score, if_neg hmw, if_pos htf]
  · intro vices phone prev cfg
    have hmw : compute_max_weighted [] cfg = 0 := rfl
    constructor <;>
      simp [compute_scores, compute_positive_score, compute_base_score, hmw]

theorem empty_habits_zero_scores_witness :
    compute_positive_score [] 0 0.85 defaultConfig = 0
  ∧ (compute_scores ⟨[], [], some 400, 3, defaultConfig⟩).base_score = 0 :=
  ⟨empty_habits_zero_scores.1 [] 0 0.85 defaultConfig (Or.inl rfl),
   (empty_habits_zero_scores.2 [] (some 400) 3 defaultConfig).2⟩

-- ===========================================================================
-- Walk invariants shared by the streak-sign, shape and frame claims
-- ===========================================================================

theorem cascadeWalk_streak_nonneg (config : ScoringConfig) :
    ∀ (days : List StoredDay) (lastDate : String) (lastStreak : ℤ),
      0 ≤ lastStreak →
      ∀ u ∈ cascadeWalk config lastDate lastStreak days, 0 ≤ u.streak := by
  intro days
  induction days with
  | nil => intro _ _ _ u hu; simp [cascadeWalk] at hu
  | cons hd tl ih =>
    intro lastDate lastStreak hls u hu
    obtain ⟨date, base_score, stored_streak, stored_final⟩ := hd
    cases hpc : previous_calendar_day date with
    | none => simp [cascadeWalk, hpc] at hu
    | some prev_day =>
      simp only [cascadeWalk, hpc] at hu
      by_cases hpd : prev_day = lastDate
      · simp only [if_pos hpd] at hu
        split at hu
        · simp at hu
        · rcases List.mem_cons.mp hu with h | h
          · subst h; exact compute_streak_nonneg _ _ _ (by omega)
          · exact ih date _ (compute_streak_nonneg _ _ _ (by omega)) u h
      · simp only [if_neg hpd] at hu
        split at hu
        · simp at hu
        · rcases List.mem_cons.mp hu with h | h
          · subst h; exact compute_streak_nonneg _ _ _ (by omega)
          · exact ih date _ (compute_streak_nonneg _ _ _ (by omega)) u h

theorem cascadeWalk_length_le (config : ScoringConfig) :
    ∀ (days : List StoredDay) (lastDate : String) (lastStreak : ℤ),
      (cascadeWalk config lastDate lastStreak days).length ≤ days.length := by
  intro days
  induction days with
  | nil => intro _ _; simp [cascadeWalk]
  | cons hd tl ih =>
    intro lastDate lastStreak
    obtain ⟨date, base_score, stored_streak, stored_final⟩ := hd
    cases hpc : previous_calendar_day date with
    | none => simp [cascadeWalk, hpc]
    | some prev_day =>
      simp only [cascadeWalk, hpc]
      by_cases hpd : prev_day = lastDate
      · simp only [if_pos hpd]
        split
        · simp
        · simpa using Nat.succ_le_succ (ih date _)
      · simp only [if_neg hpd]
        split
        · simp
        · simpa using Nat.succ_le_succ (ih date _)

theorem cascadeWalk_extras_none (config : ScoringConfig) :
    ∀ (days : List StoredDay) (lastDate : String) (lastStreak : ℤ),
      ∀ u ∈ cascadeWalk config lastDate lastStreak days,
        u.positive_score = none ∧ u.vice_penalty = none ∧ u.base_score = none := by
  intro days
  induction days with
  | nil => intro _ _ u hu; simp [cascadeWalk] at hu
  | cons hd tl ih =>
    intro lastDate lastStreak u hu
    obtain ⟨date, base_score, stored_streak, stored_final⟩ := hd
    cases hpc : previous_calendar_day date with
    | none => simp [cascadeWalk, hpc] at hu
    | some prev_day =>
      simp only [cascadeWalk, hpc] at hu
      by_cases hpd : prev_day = lastDate
      · simp only [if_pos hpd] at hu
        split at hu
        · simp at hu
        · rcases List.mem_cons.mp hu with h | h
          · subst h; exact ⟨rfl, rfl, rfl⟩
          · exact ih date _ u h
      · simp only [if_neg hpd] at hu
        split at hu
        · simp at hu
        · rcases List.mem_cons.mp hu with h | h
          · subst h; exact ⟨rfl, rfl, rfl⟩
          · exact ih date _ u h

theorem cascadeWalk_dates_prefix (config : ScoringConfig) :
    ∀ (days : List StoredDay) (i : ℕ) (hi : i < days.length) (lastDate : String)
      (lastStreak : ℤ),
      previous_calendar_day (days.get ⟨i, hi⟩).1 = none →
      ∃ k ≤ i, (cascadeWalk config lastDate lastStreak days).map CascadeUpdate.date
        = (days.take k).map (fun d => d.1) := by
  intro days
  induction days with
  | nil => intro i hi; simp at hi
  | cons hd tl ih =>
    intro i hi lastDate lastStreak hbad
    obtain ⟨date, base_score, stored_streak, stored_final⟩ := hd
    cases i with
    | zero =>
      simp only [List.get] at hbad
      exact ⟨0, le_refl 0, by simp [cascadeWalk, hbad]⟩
    | succ j =>
      have hj : j < tl.length := by simpa using hi
      have hbad' : previous_calendar_day (tl.get ⟨j, hj⟩).1 = none := by
        simpa [List.get] using hbad
      cases hpc : previous_calendar_day date with
      | none => exact ⟨0, by omega, by simp [cascadeWalk, hpc]⟩
      | some prev_day =>
        simp only [cascadeWalk, hpc]
        by_cases hpd : prev_day = lastDate
        · simp only [if_pos hpd]
          split
          · exact ⟨0, by omega, by simp⟩
          · obtain ⟨k, hk, hmap⟩ := ih j hj date
              (compute_streak base_score lastStreak config.streak_threshold) hbad'
            refine ⟨k + 1, by omega, ?_⟩
            rw [List.take_succ_cons, List.map_cons, List.map_cons, hmap]
        · simp only [if_neg hpd]
          split
          · exact ⟨0, by omega, by simp⟩
          · obtain ⟨k, hk, hmap⟩ := ih j hj date
              (compute_streak base_score 0 config.streak_threshold) hbad'
            refine ⟨k + 1, by omega, ?_⟩
            rw [List.take_succ_cons, List.map_cons, List.map_cons, hmap]

-- ===========================================================================
-- Claim theorems (continued)
-- ===========================================================================

/-- C8: the streak is never negative: `compute_scores` yields a streak ≥ 0
whenever `previous_streak ≥ -1`, and every update `compute_cascade` returns
has streak ≥ 0 whenever the edited day's streak is ≥ 0. -/
theorem streak_nonneg :
    (∀ input : ScoringInput, -1 ≤ input.previous_streak →
      0 ≤ (compute_scores input).streak)
  ∧ (∀ (edited_date : String) (edited_scores : ScoringOutput)
        (days : List StoredDay) (config : ScoringConfig),
      0 ≤ edited_scores.streak →
      ∀ u ∈ compute_cascade edited_date edited_scores days config, 0 ≤ u.streak) := by
  constructor
  · intro input h
    simp only [compute_scores]
    exact compute_streak_nonneg _ _ _ h
  · intro edited_date edited_scores days config hes u hu
    simp only [compute_cascade] at hu
    rcases List.mem_cons.mp hu with h | h
    · subst h; exact hes
    · exact cascadeWalk_streak_nonneg config days edited_date _ hes u h

theorem streak_nonneg_witness :
    0 ≤ (compute_scores ⟨[], [], some 0, -1, defaultConfig⟩).streak
  ∧ ∀ u ∈ compute_cascade "2026-02-02" ⟨0.50, 0, 0.50, 0, 0.50⟩
      [("2026-02-03", 0.70, 2, 0.714)] defaultConfig, 0 ≤ u.streak :=
  ⟨streak_nonneg.1 ⟨[], [], some 0, -1, defaultConfig⟩ (by decide),
   streak_nonneg.2 "2026-02-02" ⟨0.50, 0, 0.50, 0, 0.50⟩
     [("2026-02-03", 0.70, 2, 0.714)] defaultConfig (by decide)⟩

/-- C9: `compute_cascade` always returns between 1 and
`1 + len(subsequent_days)` updates; the first is the edited day with all
three optional score fields populated, and every later update carries only
streak and final score, the three optional fields absent. -/
theorem cascade_shape (edited_date : String) (edited_scores : ScoringOutput)
    (days : List StoredDay) (config : ScoringConfig) :
    1 ≤ (compute_cascade edited_date edited_scores days config).length
  ∧ (compute_cascade edited_date edited_scores days config).length ≤ 1 + days.length
  ∧ (compute_cascade edited_date edited_scores days config).head? = some
      { date := edited_date, streak := edited_scores.streak,
        final_score := edited_scores.final_score,
        positive_score := some edited_scores.positive_score,
        vice_penalty := some edited_scores.vice_penalty,
        base_score := some edited_scores.base_score }
  ∧ ∀ u ∈ (compute_cascade edited_date edited_scores days config).tail,
      u.positive_score = none ∧ u.vice_penalty = none ∧ u.base_score = none := by
  refine ⟨?_, ?_, rfl, ?_⟩
  · simp [compute_cascade]
  · simp only [compute_cascade, List.length_cons]
    have := cascadeWalk_length_le config days edited_date edited_scores.streak
    omega
  · simp only [compute_cascade, List.tail_cons]
    exact cascadeWalk_extras_none config days edited_date edited_scores.streak

/-- C10: if the date string at index `i` of `subsequent_days` fails to parse,
`compute_cascade` neither errors nor panics: the first returned update is
still the edited day's, and the remaining updates are those for a prefix of
the days strictly before index `i` — no update for the unparseable day or
any later day. -/
theorem cascade_silent_stop_on_bad_date (edited_date : String)
    (edited_scores : ScoringOutput) (days : List StoredDay) (config : ScoringConfig)
    (i : ℕ) (hi : i < days.length)
    (hbad : previous_calendar_day (days.get ⟨i, hi⟩).1 = none) :
    (compute_cascade edited_date edited_scores days config).head?
      = some (editedUpdate edited_date edited_scores)
  ∧ ∃ k ≤ i, ((compute_cascade edited_date edited_scores days config).tail).map
      CascadeUpdate.date = (days.take k).map (fun d => d.1) := by
  refine ⟨rfl, ?_⟩
  simpa only [compute_cascade, List.tail_cons] using
    cascadeWalk_dates_prefix config days i hi edited_date edited_scores.streak hbad

theorem cascade_silent_stop_on_bad_date_witness :
    (compute_cascade "2026-02-01" ⟨0.80, 0, 0.80, 0, 0.80⟩
        [("2026-02-02", 0.70, 1, 0.707), ("bogus", 0.70, 2, 0.714)]
        defaultConfig).head?
      = some (editedUpdate "2026-02-01" ⟨0.80, 0, 0.80, 0, 0.80⟩)
  ∧ ∃ k ≤ 1, ((compute_cascade "2026-02-01" ⟨0.80, 0, 0.80, 0, 0.80⟩
        [("2026-02-02", 0.70, 1, 0.707), ("bogus", 0.70, 2, 0.714)]
        defaultConfig).tail).map CascadeUpdate.date
      = (([("2026-02-02", 0.70, 1, 0.707), ("bogus", 0.70, 2, 0.714)]
          : List StoredDay).take k).map (fun d => d.1) :=
  cascade_silent_stop_on_bad_date "2026-02-01" ⟨0.80, 0, 0.80, 0, 0.80⟩
    [("2026-02-02", 0.70, 1, 0.707), ("bogus", 0.70, 2, 0.714)] defaultConfig
    1 (by decide) (by decide)

end LifeTracker
